import Mathlib

/-!
Verification development for the robinhood-algo-trading-bot repository.

The repository slice under version control contains the glue script
`backtest.py` and package re-export stubs; the Backtest Engine core
(execution simulator, portfolio ledger, data-quality validator, metrics
calculator) is declared and called but its implementation is not part of
the slice.  Following the specification document, the engine core is
modelled here from the spec's own words; the parts that do appear in
`backtest.py` (the profit-factor display branch, the guarded engine
import, and `main`'s market-data handling) are embedded from that source.
Monetary amounts are embedded as exact rationals, mirroring the source's
use of Python `Decimal` (exact, non-float) arithmetic.
-/

namespace TradingBot

/-- Modelled from the spec (section 3, Bar): one OHLCV observation.
`timestamp` is a day number; `opn` is the open price.  Prices are exact
rationals (the source uses `Decimal`), volume a natural number. -/
structure Bar where
  timestamp : Nat
  opn : ℚ
  high : ℚ
  low : ℚ
  close : ℚ
  volume : Nat
deriving DecidableEq, Repr

/-- Modelled from the spec (section 3, Signal): the strategy's per-bar
decision, a variant over Hold / EnterLong / ExitLong / EnterShort /
ExitShort with a size fraction on entries. -/
inductive Signal where
  | hold
  | enterLong (size_fraction : ℚ)
  | exitLong
  | enterShort (size_fraction : ℚ)
  | exitShort
deriving DecidableEq, Repr

/-- Side of a fill: buys pay up, sells receive less (spec section 3, Fill). -/
inductive Side where
  | buy
  | sell
deriving DecidableEq, Repr

/-- Modelled from the spec (section 3, Fill): the simulated execution of a
signal at a slippage-adjusted price with a commission. -/
structure Fill where
  side : Side
  price : ℚ
  shares : Nat
  commission : ℚ
deriving DecidableEq, Repr

/-- Modelled from the spec (section 3, BacktestConfig): the engine-relevant
configuration fields.  The source `backtest.py` builds this with `Decimal`
values (initial_capital 7000.0, commission 0.0, slippage_pct 0.001). -/
structure EngineConfig where
  initial_capital : ℚ
  commission : ℚ
  slippage_pct : ℚ
deriving DecidableEq, Repr

/-- Modelled from the spec (section 4.4, Portfolio Ledger): cash, the open
position's share count, its average entry price and the commission paid at
entry (needed for the trade's total-commission pnl). -/
structure LedgerState where
  cash : ℚ
  shares : Nat
  avgEntry : ℚ
  entryComm : ℚ
deriving DecidableEq, Repr

/-- Modelled from the spec (section 3, Trade): exit reason of a closed trade. -/
inductive ExitReason where
  | signal_exit
  | stop_loss
  | take_profit
  | end_of_data
deriving DecidableEq, Repr

/-- Modelled from the spec (section 3, Trade): a closed trade record with
`pnl = (exit_price - entry_price) * shares - total_commission` and
`pnl_pct = pnl / (entry_price * shares)` (spec section 4.4). -/
structure Trade where
  entry_price : ℚ
  exit_price : ℚ
  shares : Nat
  pnl : ℚ
  pnl_pct : ℚ
  exit_reason : ExitReason
deriving DecidableEq, Repr

/-- Modelled from the spec (section 4.3 step 2): the integral share count of
an entry, `floor(available_cash * size_fraction / adjusted_price)`,
clamped into the naturals (negative or undefined quotients give 0 shares). -/
def entryShares (available_cash size_fraction adjusted_price : ℚ) : Nat :=
  (⌊available_cash * size_fraction / adjusted_price⌋).toNat

/-- Modelled from the spec (section 4.3, Execution Simulator):
`fill(signal, bar, available_cash) -> Fill | none`.  The current position
size is passed explicitly so exits can fill the full position (step 4) and
so entries respect the no-nested-positions state machine (section 4.4).
Hold gives none; entries use the slippage-adjusted close (buys pay
`close * (1 + slippage_pct)`, sells receive `close * (1 - slippage_pct)`)
and give none when zero shares are affordable (a no-op, not an error);
a long entry whose cost including commission would overdraw cash is
rejected here, per the ledger invariant of section 4.4. -/
def fill (cfg : EngineConfig) (sig : Signal) (bar : Bar)
    (available_cash : ℚ) (position_shares : Nat) : Option Fill :=
  match sig with
  | .hold => none
  | .enterLong f =>
      if position_shares ≠ 0 then none
      else
        let adj := bar.close * (1 + cfg.slippage_pct)
        let n := entryShares available_cash f adj
        if n = 0 then none
        else if available_cash < n * adj + cfg.commission then none
        else some ⟨.buy, adj, n, cfg.commission⟩
  | .exitLong =>
      if position_shares = 0 then none
      else some ⟨.sell, bar.close * (1 - cfg.slippage_pct), position_shares, cfg.commission⟩
  | .enterShort f =>
      if position_shares ≠ 0 then none
      else
        let adj := bar.close * (1 - cfg.slippage_pct)
        let n := entryShares available_cash f adj
        if n = 0 then none
        else some ⟨.sell, adj, n, cfg.commission⟩
  | .exitShort =>
      if position_shares = 0 then none
      else some ⟨.buy, bar.close * (1 + cfg.slippage_pct), position_shares, cfg.commission⟩

/-- Modelled from the spec (section 4.4): the ledger state machine detailed
by the spec covers the long lifecycle `Flat -> Long -> Flat`; short signals
are outside the detailed machine and are treated as holds by the engine
loop (spec gives no short ledger transitions). -/
def engineSignal : Signal → Signal
  | .enterShort _ => .hold
  | .exitShort => .hold
  | s => s

/-- One processed bar of the simulation: the bar itself, the ledger state
after the bar's (optional) fill, the mark-to-market equity recorded for the
bar, the fill, and the trade closed at this bar, if any. -/
structure BarStep where
  bar : Bar
  state : LedgerState
  equity : ℚ
  filled : Option Fill
  closedTrade : Option Trade
deriving DecidableEq, Repr

/-- Modelled from the spec (section 4.4): apply one bar.  The signal is
passed to the Execution Simulator; a buy fill debits
`shares * price + commission` and opens the position, a sell fill credits
`shares * price - commission`, closes the position and emits the candidate
Trade.  Equity is recomputed mark-to-market every bar:
`equity = cash + shares * bar.close`, also on bars with no fill. -/
def stepRecord (cfg : EngineConfig) (sig : Signal) (bar : Bar)
    (st : LedgerState) : BarStep :=
  match fill cfg (engineSignal sig) bar st.cash st.shares with
  | none =>
      { bar := bar, state := st,
        equity := st.cash + (st.shares : ℚ) * bar.close,
        filled := none, closedTrade := none }
  | some f =>
      match f.side with
      | .buy =>
          let st' : LedgerState :=
            { cash := st.cash - ((f.shares : ℚ) * f.price + f.commission),
              shares := st.shares + f.shares,
              avgEntry := f.price, entryComm := f.commission }
          { bar := bar, state := st',
            equity := st'.cash + (st'.shares : ℚ) * bar.close,
            filled := some f, closedTrade := none }
      | .sell =>
          let st' : LedgerState :=
            { cash := st.cash + ((f.shares : ℚ) * f.price - f.commission),
              shares := st.shares - f.shares,
              avgEntry := 0, entryComm := 0 }
          let pnl : ℚ := (f.price - st.avgEntry) * (f.shares : ℚ) - (st.entryComm + f.commission)
          { bar := bar, state := st',
            equity := st'.cash + (st'.shares : ℚ) * bar.close,
            filled := some f,
            closedTrade := some ⟨st.avgEntry, f.price, f.shares, pnl,
              pnl / (st.avgEntry * (f.shares : ℚ)), .signal_exit⟩ }

/-- A strategy under the Strategy Adapter contract (spec section 4.2):
`decide(context) -> Signal` where the context exposes the bar history up to
and including the current bar and the current ledger state. -/
def Strategy : Type := List Bar → LedgerState → Signal

/-- Modelled from the spec (section 2, control flow): iterate the bars in
order, asking the strategy for a signal on each bar with the history prefix
up to and including that bar, producing one `BarStep` per bar. -/
def trace (cfg : EngineConfig) (strat : Strategy) :
    List Bar → LedgerState → List Bar → List BarStep
  | _, _, [] => []
  | past, st, b :: rest =>
      let hist := past ++ [b]
      let r := stepRecord cfg (strat hist st) b st
      r :: trace cfg strat hist r.state rest

/-- Modelled from the spec: the ledger starts flat with all the initial
capital as cash. -/
def initState (cfg : EngineConfig) : LedgerState :=
  { cash := cfg.initial_capital, shares := 0, avgEntry := 0, entryComm := 0 }

/-- The full simulation trace of a run: one `BarStep` per input bar,
starting from the initial ledger state with empty history. -/
def runTrace (cfg : EngineConfig) (strat : Strategy) (bars : List Bar) :
    List BarStep :=
  trace cfg strat [] (initState cfg) bars

/-- The equity change attributable to a fill, marked at the bar's close: a
buy of n shares at price p moves equity by `n * (close - p) - commission`
(slippage and commission drag), a sell by `n * (p - close) - commission`;
no fill moves equity by 0.  This is the fill's net cash effect plus the
mark-to-market value of the shares it adds or removes. -/
def fillEffect : Option Fill → ℚ → ℚ
  | none, _ => 0
  | some f, close =>
      match f.side with
      | .buy => (f.shares : ℚ) * (close - f.price) - f.commission
      | .sell => (f.shares : ℚ) * (f.price - close) - f.commission

/-- The spec's consecutive-bar equity decomposition (section 8, cash
conservation): between consecutive processed bars, equity changes only by
mark-to-market price movement of the position carried into the bar plus
the net effect of the bar's fill. -/
def DeltaStep (p c : BarStep) : Prop :=
  c.equity - p.equity =
    (p.state.shares : ℚ) * (c.bar.close - p.bar.close) + fillEffect c.filled c.bar.close

/-- Modelled from the spec (section 4.6): number of winning trades, the
trades with positive pnl. -/
def winningPnls (pnls : List ℚ) : List ℚ :=
  pnls.filter (fun p => 0 < p)

/-- Modelled from the spec (section 4.6): number of losing trades, the
trades with negative pnl. -/
def losingPnls (pnls : List ℚ) : List ℚ :=
  pnls.filter (fun p => p < 0)

/-- Modelled from the spec (section 4.6):
`win_rate = winning_trades / total_trades`, 0 when there are no trades
(no division by zero). -/
def win_rate (pnls : List ℚ) : ℚ :=
  if pnls.length = 0 then 0
  else ((winningPnls pnls).length : ℚ) / (pnls.length : ℚ)

/-- Modelled from the spec (section 4.6):
`profit_factor = sum(winning pnl) / abs(sum(losing pnl))`; when there are
no losing trades the value is the explicit sentinel 0 (reported as
"not applicable" by the display branch of `backtest.py`), never infinity
and never NaN. -/
def profit_factor (pnls : List ℚ) : ℚ :=
  if (losingPnls pnls).length = 0 then 0
  else (winningPnls pnls).sum / |(losingPnls pnls).sum|

/-- Modelled from the spec (section 4.6): arithmetic mean of the winning
trades' pnl, zero when there are none. -/
def average_win (pnls : List ℚ) : ℚ :=
  if (winningPnls pnls).length = 0 then 0
  else (winningPnls pnls).sum / ((winningPnls pnls).length : ℚ)

/-- Modelled from the spec (section 4.6): arithmetic mean of the losing
trades' pnl, zero when there are none. -/
def average_loss (pnls : List ℚ) : ℚ :=
  if (losingPnls pnls).length = 0 then 0
  else (losingPnls pnls).sum / ((losingPnls pnls).length : ℚ)

/-- Modelled from the spec (section 4.6): the rational-valued subset of the
metrics snapshot the claims are about. -/
structure Metrics where
  total_trades : Nat
  winning_trades : Nat
  losing_trades : Nat
  win_rate : ℚ
  profit_factor : ℚ
  average_win : ℚ
  average_loss : ℚ
  total_return : ℚ
deriving DecidableEq, Repr

/-- Modelled from the spec (section 4.6): compute the metrics snapshot once
from the initial capital, the final equity and the trades' pnl list. -/
def computeMetrics (initial_capital final_equity : ℚ) (pnls : List ℚ) : Metrics :=
  { total_trades := pnls.length
    winning_trades := (winningPnls pnls).length
    losing_trades := (losingPnls pnls).length
    win_rate := win_rate pnls
    profit_factor := profit_factor pnls
    average_win := average_win pnls
    average_loss := average_loss pnls
    total_return := (final_equity - initial_capital) / initial_capital }

/-- Embedded from src/backtest.py lines 207-210: the report prints the
numeric profit factor when `metrics.profit_factor > 0` and otherwise the
line "Profit Factor: N/A (no losing trades)".  This predicate is true
exactly when the N/A branch is taken. -/
def profitFactorShownAsNA (pf : ℚ) : Bool :=
  if 0 < pf then false else true

/-- Modelled from the spec (section 4.1): the fatal validation error; only
a non-monotonic timestamp sequence aborts the run. -/
inductive DataError where
  | non_monotonic
deriving DecidableEq, Repr

/-- Modelled from the spec (section 4.1 check a): timestamps strictly
increasing along the series. -/
def strictlyIncreasingB : List Bar → Bool
  | a :: b :: rest => (decide (a.timestamp < b.timestamp)) && strictlyIncreasingB (b :: rest)
  | _ => true

/-- Modelled from the spec (section 4.1 check b): a warning for every
consecutive pair of bars separated by more than 3 missing trading days
(day gap greater than 4). -/
def gapWarnings : List Bar → List String
  | a :: b :: rest =>
      (if 4 < b.timestamp - a.timestamp then
        ["gap of more than 3 missing days before bar at day " ++ toString b.timestamp]
      else []) ++ gapWarnings (b :: rest)
  | _ => []

/-- True when no consecutive pair of bars is separated by more than 3
missing trading days. -/
def noOversizedGaps : List Bar → Bool
  | a :: b :: rest => (decide (b.timestamp - a.timestamp ≤ 4)) && noOversizedGaps (b :: rest)
  | _ => true

/-- Modelled from the spec (section 4.1 check c): a bar is anomalous when
`high < low` or `close` lies outside `[low, high]`. -/
def barAnomalous (b : Bar) : Bool :=
  decide (b.high < b.low) || decide (b.close < b.low) || decide (b.high < b.close)

/-- Modelled from the spec (section 4.1 check c): one warning per anomalous
bar. -/
def priceAnomalyWarnings (bars : List Bar) : List String :=
  bars.filterMap fun b =>
    if barAnomalous b then
      some ("price anomaly at bar at day " ++ toString b.timestamp)
    else none

/-- Modelled from the spec (section 4.1 check d): one warning per
zero-volume bar. -/
def zeroVolumeWarnings (bars : List Bar) : List String :=
  bars.filterMap fun b =>
    if b.volume = 0 then
      some ("zero volume at bar at day " ++ toString b.timestamp)
    else none

/-- Modelled from the spec (section 4.1, Data Quality Validator):
`validate(bars) -> sequence of warning strings`; a non-strictly-increasing
timestamp sequence is fatal (`DataError`), everything else is a warning,
emitted in the order of the checks; the scan is pure. -/
def validate (bars : List Bar) : Except DataError (List String) :=
  if strictlyIncreasingB bars then
    .ok (gapWarnings bars ++ priceAnomalyWarnings bars ++ zeroVolumeWarnings bars)
  else
    .error .non_monotonic

/-- A bar series is clean when it is strictly increasing with no oversized
gaps, no price anomalies and no zero-volume bars. -/
def cleanSeries (bars : List Bar) : Bool :=
  strictlyIncreasingB bars && noOversizedGaps bars &&
    bars.all (fun b => !barAnomalous b) && bars.all (fun b => b.volume ≠ 0)

/-- Modelled from the spec (section 3, BacktestResult): metrics, ordered
trades, equity curve, data warnings and the wall-clock execution time. -/
structure BacktestResult where
  metrics : Metrics
  trades : List Trade
  equity_curve : List ℚ
  data_warnings : List String
  execution_time_seconds : ℚ
deriving DecidableEq, Repr

/-- Modelled from the spec (sections 2 and 4.4): any position still open
after the last bar is force-closed at the last bar's close price with
`exit_reason = end_of_data` (exit commission charged as configured). -/
def forceCloseTrade (cfg : EngineConfig) (last : BarStep) : Trade :=
  let pnl : ℚ := (last.bar.close - last.state.avgEntry) * (last.state.shares : ℚ)
      - (last.state.entryComm + cfg.commission)
  { entry_price := last.state.avgEntry
    exit_price := last.bar.close
    shares := last.state.shares
    pnl := pnl
    pnl_pct := pnl / (last.state.avgEntry * (last.state.shares : ℚ))
    exit_reason := .end_of_data }

/-- The trades of a run: every trade closed during the bar loop, in closing
order, followed by the end-of-data force close if a position is still open. -/
def runTrades (cfg : EngineConfig) (steps : List BarStep) : List Trade :=
  steps.filterMap (fun r => r.closedTrade) ++
    match steps.getLast? with
    | none => []
    | some last => if last.state.shares ≠ 0 then [forceCloseTrade cfg last] else []

/-- Modelled from the spec (section 2, Backtest Engine): validate the data
(fatal `DataError` aborts before any ledger state is created), iterate the
bars, force-close at end of data, and assemble the `BacktestResult`.  The
wall clock enters only through the `clock` argument, which lands solely in
`execution_time_seconds`. -/
def runBacktest (cfg : EngineConfig) (strat : Strategy) (bars : List Bar)
    (clock : ℚ) : Except DataError BacktestResult :=
  match validate bars with
  | .error e => .error e
  | .ok ws =>
      let steps := runTrace cfg strat bars
      let trades := runTrades cfg steps
      let equity := steps.map (fun r => r.equity)
      let finalEquity := (equity.getLast?).getD cfg.initial_capital
      .ok { metrics := computeMetrics cfg.initial_capital finalEquity
              (trades.map (fun t => t.pnl))
            trades := trades
            equity_curve := equity
            data_warnings := ws
            execution_time_seconds := clock }

/-- The clock-independent core of a result: everything except
`execution_time_seconds`. -/
def resultCore (r : BacktestResult) :
    Metrics × List Trade × List ℚ × List String :=
  (r.metrics, r.trades, r.equity_curve, r.data_warnings)

/-- Modelled from the spec (section 4.6):
`annualized_return = (1 + total_return) ^ (365.25 / elapsed_days) - 1`. -/
noncomputable def annualized_return (total_return elapsed_days : ℝ) : ℝ :=
  (1 + total_return) ^ (365.25 / elapsed_days) - 1

/-- Modelled from the spec (section 4.6): `cagr`, the compound annual
growth rate, computed identically to `annualized_return` for a single
continuous holding period:
`(1 + total_return) ^ (365.25 / elapsed_days) - 1`. -/
noncomputable def cagr (total_return elapsed_days : ℝ) : ℝ :=
  (1 + total_return) ^ (365.25 / elapsed_days) - 1

/-- Whether the guarded import of the BacktestEngine in src/backtest.py
lines 99-107 succeeded or raised ImportError. -/
inductive EngineImportResult where
  | available
  | failed
deriving DecidableEq, Repr

/-- Observable outcome of the script's module-level startup code. -/
structure ScriptStartupOutcome where
  warnings_printed : List String
  exit_code : Option Nat
  main_runs : Bool
deriving DecidableEq, Repr

/-- Embedded from src/backtest.py lines 99-107: the script wraps the
engine import in try/except; on ImportError it prints two warning lines
and calls `sys.exit(0)` before `main` can run, otherwise it sets
`ENGINE_AVAILABLE = True` and execution continues into `main`. -/
def scriptStartup : EngineImportResult → ScriptStartupOutcome
  | .available => { warnings_printed := [], exit_code := none, main_runs := true }
  | .failed =>
      { warnings_printed :=
          ["WARNING: BacktestEngine not yet implemented.",
           "This example will be functional once T027 (BacktestEngine) is completed."]
        exit_code := some 0
        main_runs := false }

/-- The symbol list hard-coded in src/backtest.py line 156. -/
def mainSymbols : List String := ["AAPL"]

/-- Embedded from src/backtest.py lines 159-164: per-symbol fetch, keeping
the successfully fetched data and dropping failed symbols. -/
def gatherMarketData (fetch : String → Except String (List Bar))
    (symbols : List String) : List (String × List Bar) :=
  symbols.filterMap fun s =>
    match fetch s with
    | .ok d => some (s, d)
    | .error _ => none

/-- Embedded from src/backtest.py lines 163-164: the error line logged for
each symbol whose fetch raised. -/
def fetchErrorLogs (fetch : String → Except String (List Bar))
    (symbols : List String) : List String :=
  symbols.filterMap fun s =>
    match fetch s with
    | .ok _ => none
    | .error e => some ("Failed to fetch " ++ s ++ ": " ++ e)

/-- Observable outcome of `main` in src/backtest.py as far as the data
acquisition step: what was logged, whether a `BacktestConfig` was
constructed, whether a `BacktestEngine` was created, and whether an
exception propagated to the caller. -/
structure MainOutcome where
  logged_errors : List String
  config_built : Bool
  engine_created : Bool
  raised : Bool
deriving DecidableEq, Repr

/-- Embedded from src/backtest.py lines 156-194: fetch each symbol inside
try/except (logging failures); if `market_data` is empty, log
"No market data available. Exiting." and return normally, before any
`BacktestConfig` or `BacktestEngine` exists; otherwise build the config
and the engine. -/
def mainModel (fetch : String → Except String (List Bar)) : MainOutcome :=
  let md := gatherMarketData fetch mainSymbols
  if md.isEmpty then
    { logged_errors := fetchErrorLogs fetch mainSymbols ++ ["No market data available. Exiting."]
      config_built := false, engine_created := false, raised := false }
  else
    { logged_errors := fetchErrorLogs fetch mainSymbols
      config_built := true, engine_created := true, raised := false }

/-! ## Helper lemmas -/

/-- Both the bar recorded by a step and the recorded equity follow the
mark-to-market rule by construction of `stepRecord`. -/
lemma stepRecord_bar (cfg : EngineConfig) (sig : Signal) (bar : Bar) (st : LedgerState) :
    (stepRecord cfg sig bar st).bar = bar := by
  unfold stepRecord
  cases hf : fill cfg (engineSignal sig) bar st.cash st.shares with
  | none => rfl
  | some f =>
      rcases f with ⟨side, price, n, cm⟩
      cases side <;> rfl

/-- The equity recorded by a step is the post-fill cash plus the post-fill
position marked at the bar's close. -/
lemma stepRecord_equity (cfg : EngineConfig) (sig : Signal) (bar : Bar) (st : LedgerState) :
    (stepRecord cfg sig bar st).equity =
      (stepRecord cfg sig bar st).state.cash +
        ((stepRecord cfg sig bar st).state.shares : ℚ) * bar.close := by
  unfold stepRecord
  cases hf : fill cfg (engineSignal sig) bar st.cash st.shares with
  | none => rfl
  | some f =>
      rcases f with ⟨side, price, n, cm⟩
      cases side <;> rfl

/-- Inversion on the fills the engine loop can see: through `engineSignal`
only long entries (buy fills that passed the overdraw check) and full
long exits (sell fills of the whole position) are produced. -/
lemma fill_engine_inversion (cfg : EngineConfig) (sig : Signal) (bar : Bar)
    (c : ℚ) (p : Nat) (f : Fill)
    (hf : fill cfg (engineSignal sig) bar c p = some f) :
    (f.side = .buy ∧ f.commission = cfg.commission ∧
      ¬ c < (f.shares : ℚ) * f.price + cfg.commission) ∨
    (f.side = .sell ∧ f.commission = cfg.commission ∧ f.shares = p ∧ p ≠ 0 ∧
      f.price = bar.close * (1 - cfg.slippage_pct)) := by
  cases sig with
  | hold => exact Option.noConfusion hf
  | enterShort fr => exact Option.noConfusion hf
  | exitShort => exact Option.noConfusion hf
  | enterLong fr =>
      simp only [engineSignal, fill] at hf
      split at hf
      · exact Option.noConfusion hf
      · split at hf
        · exact Option.noConfusion hf
        · split at hf
          · exact Option.noConfusion hf
          · rename_i hguard
            cases hf
            exact Or.inl ⟨rfl, rfl, hguard⟩
  | exitLong =>
      simp only [engineSignal, fill] at hf
      split at hf
      · exact Option.noConfusion hf
      · rename_i hp
        cases hf
        exact Or.inr ⟨rfl, rfl, rfl, hp, rfl⟩

/-- One-step equity decomposition: relative to any previous close `c`, the
step's equity moves by the carried position's mark-to-market move plus the
fill's effect. -/
lemma stepRecord_delta (cfg : EngineConfig) (sig : Signal) (bar : Bar)
    (st : LedgerState) (c : ℚ) :
    (stepRecord cfg sig bar st).equity - (st.cash + (st.shares : ℚ) * c) =
      (st.shares : ℚ) * (bar.close - c) +
        fillEffect (stepRecord cfg sig bar st).filled bar.close := by
  unfold stepRecord
  cases hf : fill cfg (engineSignal sig) bar st.cash st.shares with
  | none => simp [fillEffect]; ring
  | some f =>
      rcases fill_engine_inversion cfg sig bar st.cash st.shares f hf with
        ⟨hside, _, _⟩ | ⟨hside, _, hsh, _, _⟩
      · rcases f with ⟨side, price, n, cm⟩
        cases side with
        | sell => exact absurd hside (by simp)
        | buy =>
            simp only [fillEffect]
            push_cast
            ring
      · rcases f with ⟨side, price, n, cm⟩
        cases side with
        | buy => exact absurd hside (by simp)
        | sell =>
            simp only at hsh
            subst hsh
            simp only [fillEffect, Nat.sub_self, Nat.cast_zero]
            ring

/-- The cash invariant carried through the run: cash never drops below
minus one commission, and while a position is open cash is non-negative. -/
def CashInv (cfg : EngineConfig) (st : LedgerState) : Prop :=
  -cfg.commission ≤ st.cash ∧ (st.shares ≠ 0 → 0 ≤ st.cash)

/-- One step preserves the cash invariant: entries are rejected at fill
time when they would overdraw, exits credit the gross proceeds minus at
most one commission. -/
lemma stepRecord_cash_inv (cfg : EngineConfig) (sig : Signal) (bar : Bar)
    (st : LedgerState) (hcomm : 0 ≤ cfg.commission) (hclose : 0 ≤ bar.close)
    (hslip : cfg.slippage_pct ≤ 1) (h : CashInv cfg st) :
    CashInv cfg (stepRecord cfg sig bar st).state := by
  unfold stepRecord
  cases hf : fill cfg (engineSignal sig) bar st.cash st.shares with
  | none => simpa using h
  | some f =>
      rcases fill_engine_inversion cfg sig bar st.cash st.shares f hf with
        ⟨hside, hcm, hguard⟩ | ⟨hside, hcm, hsh, hp, hprice⟩
      · rcases f with ⟨side, price, n, cm⟩
        cases side with
        | sell => exact absurd hside (by simp)
        | buy =>
            simp only at hguard
            push_neg at hguard
            refine ⟨by simp; linarith, fun _ => by simp; linarith⟩
      · rcases f with ⟨side, price, n, cm⟩
        cases side with
        | buy => exact absurd hside (by simp)
        | sell =>
            simp only at hsh hcm hprice
            subst hsh hcm hprice
            have hcash : 0 ≤ st.cash := h.2 hp
            have hpr : 0 ≤ bar.close * (1 - cfg.slippage_pct) :=
              mul_nonneg hclose (by linarith)
            have hprod : 0 ≤ (st.shares : ℚ) * (bar.close * (1 - cfg.slippage_pct)) :=
              mul_nonneg (Nat.cast_nonneg _) hpr
            exact ⟨by simp; linarith, fun hsz => by simp at hsz⟩

/-- The trace records one step per bar, in order. -/
lemma trace_bars (cfg : EngineConfig) (strat : Strategy) :
    ∀ (bars past : List Bar) (st : LedgerState),
      (trace cfg strat past st bars).map (fun r => r.bar) = bars := by
  intro bars
  induction bars with
  | nil => intro past st; rfl
  | cons b rest ih =>
      intro past st
      simp [trace, stepRecord_bar, ih]

/-- Every step of a trace records mark-to-market equity:
`equity = cash + shares * close` of its own bar. -/
lemma trace_equity (cfg : EngineConfig) (strat : Strategy) :
    ∀ (bars past : List Bar) (st : LedgerState),
      ∀ r ∈ trace cfg strat past st bars,
        r.equity = r.state.cash + (r.state.shares : ℚ) * r.bar.close := by
  intro bars
  induction bars with
  | nil => intro past st r hr; exact absurd hr (by simp [trace])
  | cons b rest ih =>
      intro past st r hr
      simp only [trace, List.mem_cons] at hr
      rcases hr with rfl | hr
      · rw [stepRecord_bar, stepRecord_equity]
      · exact ih _ _ r hr

/-- Every state along a trace satisfies the cash invariant, given a
non-negative commission, slippage at most 1 and non-negative closes. -/
lemma trace_cash_inv (cfg : EngineConfig) (strat : Strategy)
    (hcomm : 0 ≤ cfg.commission) (hslip : cfg.slippage_pct ≤ 1) :
    ∀ (bars past : List Bar) (st : LedgerState),
      (∀ b ∈ bars, 0 ≤ b.close) → CashInv cfg st →
      ∀ r ∈ trace cfg strat past st bars, CashInv cfg r.state := by
  intro bars
  induction bars with
  | nil => intro past st _ _ r hr; exact absurd hr (by simp [trace])
  | cons b rest ih =>
      intro past st hclose hst r hr
      have hinv : CashInv cfg (stepRecord cfg (strat (past ++ [b]) st) b st).state :=
        stepRecord_cash_inv cfg _ b st hcomm (hclose b (by simp)) hslip hst
      simp only [trace, List.mem_cons] at hr
      rcases hr with rfl | hr
      · exact hinv
      · exact ih _ _ (fun b' hb' => hclose b' (by simp [hb'])) hinv r hr

/-- Consecutive steps of a trace satisfy the spec's equity-change
decomposition. -/
lemma trace_chain (cfg : EngineConfig) (strat : Strategy) :
    ∀ (bars past : List Bar) (st : LedgerState),
      List.Chain' DeltaStep (trace cfg strat past st bars) := by
  intro bars
  induction bars with
  | nil => intro past st; simp [trace]
  | cons b rest ih =>
      intro past st
      cases rest with
      | nil => simp [trace]
      | cons b' rest' =>
          simp only [trace]
          rw [List.chain'_cons]
          constructor
          · unfold DeltaStep
            rw [stepRecord_bar, stepRecord_bar, stepRecord_equity cfg _ b st]
            exact stepRecord_delta cfg _ b' _ b.close
          · have := ih (past ++ [b]) (stepRecord cfg (strat (past ++ [b]) st) b st).state
            simpa only [trace] using this

/-- Every element of `winningPnls` is positive. -/
lemma winningPnls_mem_pos (pnls : List ℚ) : ∀ x ∈ winningPnls pnls, 0 < x := by
  intro x hx
  simp only [winningPnls, List.mem_filter, decide_eq_true_eq] at hx
  exact hx.2

/-- Every element of `losingPnls` is negative. -/
lemma losingPnls_mem_neg (pnls : List ℚ) : ∀ x ∈ losingPnls pnls, x < 0 := by
  intro x hx
  simp only [losingPnls, List.mem_filter, decide_eq_true_eq] at hx
  exact hx.2

/-- The sum of a non-empty list of negative rationals is negative. -/
lemma list_sum_neg (l : List ℚ) (h : ∀ x ∈ l, x < 0) (hne : l ≠ []) : l.sum < 0 := by
  induction l with
  | nil => exact absurd rfl hne
  | cons a t ih =>
      rcases eq_or_ne t [] with rfl | hne'
      · simpa using h a (by simp)
      · have ht := ih (fun x hx => h x (by simp [hx])) hne'
        have ha := h a (by simp)
        simp only [List.sum_cons]
        linarith

/-- The sum of the winning pnls is positive when a winner exists. -/
lemma winning_sum_pos (pnls : List ℚ) (h : (winningPnls pnls).length ≠ 0) :
    0 < (winningPnls pnls).sum :=
  List.sum_pos _ (winningPnls_mem_pos pnls)
    (fun hnil => h (by rw [hnil]; rfl))

/-- The sum of the losing pnls is negative when a loser exists. -/
lemma losing_sum_neg (pnls : List ℚ) (h : (losingPnls pnls).length ≠ 0) :
    (losingPnls pnls).sum < 0 :=
  list_sum_neg _ (losingPnls_mem_neg pnls)
    (fun hnil => h (by rw [hnil]; rfl))

/-- A series with no oversized gaps yields no gap warnings. -/
lemma gapWarnings_eq_nil :
    ∀ bars : List Bar, noOversizedGaps bars = true → gapWarnings bars = [] := by
  intro bars
  induction bars with
  | nil => intro _; rfl
  | cons a rest ih =>
      cases rest with
      | nil => intro _; rfl
      | cons b rest' =>
          intro h
          simp only [noOversizedGaps, Bool.and_eq_true, decide_eq_true_eq] at h
          simp only [gapWarnings, if_neg (by omega : ¬ 4 < b.timestamp - a.timestamp),
            List.nil_append]
          exact ih h.2

/-- A series with no anomalous bars yields no price-anomaly warnings. -/
lemma priceAnomalyWarnings_eq_nil (bars : List Bar)
    (h : bars.all (fun b => !barAnomalous b) = true) :
    priceAnomalyWarnings bars = [] := by
  rw [priceAnomalyWarnings, List.filterMap_eq_nil_iff]
  intro b hb
  have := (List.all_eq_true.mp h) b hb
  simp only [Bool.not_eq_true'] at this
  simp [this]

/-- A series with no zero-volume bars yields no volume warnings. -/
lemma zeroVolumeWarnings_eq_nil (bars : List Bar)
    (h : bars.all (fun b => b.volume ≠ 0) = true) :
    zeroVolumeWarnings bars = [] := by
  rw [zeroVolumeWarnings, List.filterMap_eq_nil_iff]
  intro b hb
  have := (List.all_eq_true.mp h) b hb
  simp only [decide_eq_true_eq] at this
  simp [this]

/-! ## Claim theorems -/

/-- C4: `annualized_return` and `cagr` are computed by the identical
formula `(1 + total_return) ^ (365.25 / elapsed_days) - 1`, so the two
reported values coincide for any single continuous backtest window. -/
theorem annualized_return_eq_cagr (total_return elapsed_days : ℝ) :
    annualized_return total_return elapsed_days = cagr total_return elapsed_days := rfl

/-- C7: two runs of the engine on identical config, strategy and bar
series agree on metrics, trades, equity curve and warnings; the clock
input influences nothing but `execution_time_seconds`, and with equal
clocks the results are byte-identical. -/
theorem run_deterministic_core (cfg : EngineConfig) (strat : Strategy)
    (bars : List Bar) (t1 t2 : ℚ) :
    (runBacktest cfg strat bars t1).map resultCore =
      (runBacktest cfg strat bars t2).map resultCore ∧
    runBacktest cfg strat bars t1 = runBacktest cfg strat bars t1 := by
  refine ⟨?_, rfl⟩
  unfold runBacktest
  cases hv : validate bars <;> rfl

/-- C9: the script performs a runtime existence-check on the
BacktestEngine — when the import raises ImportError it prints two warning
lines and exits with status 0 before `main` runs, and only when the import
succeeds does execution reach `main`. -/
theorem engine_import_guard :
    scriptStartup .failed =
      { warnings_printed :=
          ["WARNING: BacktestEngine not yet implemented.",
           "This example will be functional once T027 (BacktestEngine) is completed."]
        exit_code := some 0
        main_runs := false } ∧
    scriptStartup .available =
      { warnings_printed := [], exit_code := none, main_runs := true } :=
  ⟨rfl, rfl⟩

/-- C10: when fetching fails for every configured symbol, `main` logs the
"No market data available" error and returns normally — no
`BacktestConfig` is constructed, no `BacktestEngine` is created and no
exception propagates. -/
theorem main_no_market_data (fetch : String → Except String (List Bar))
    (h : ∀ s ∈ mainSymbols, ∃ e, fetch s = Except.error e) :
    mainModel fetch =
      { logged_errors := fetchErrorLogs fetch mainSymbols ++
          ["No market data available. Exiting."]
        config_built := false, engine_created := false, raised := false } ∧
    (mainModel fetch).config_built = false ∧
    (mainModel fetch).engine_created = false ∧
    (mainModel fetch).raised = false := by
  obtain ⟨e, he⟩ := h "AAPL" (by simp [mainSymbols])
  have hempty : gatherMarketData fetch mainSymbols = [] := by
    simp [gatherMarketData, mainSymbols, he]
  refine ⟨?_, ?_, ?_, ?_⟩ <;> simp [mainModel, hempty]

/-- A fetch function that fails for every symbol, used to witness
`main_no_market_data`. -/
def fetchAlwaysFails : String → Except String (List Bar) :=
  fun _ => Except.error "network unavailable"

/-- Witness for C10: with an always-failing fetch, `main` takes the
early-return branch without building a config. -/
theorem main_no_market_data_witness :
    (mainModel fetchAlwaysFails).config_built = false ∧
    (mainModel fetchAlwaysFails).raised = false :=
  ⟨(main_no_market_data fetchAlwaysFails
      (fun _ _ => ⟨"network unavailable", rfl⟩)).2.1,
   (main_no_market_data fetchAlwaysFails
      (fun _ _ => ⟨"network unavailable", rfl⟩)).2.2.2⟩

/-- C2: the Execution Simulator returns none on Hold; entries use the
slippage-adjusted close (`close * (1 + slippage_pct)` for buys,
`close * (1 - slippage_pct)` for short-entry sells), fill
`floor(available_cash * size_fraction / adjusted_price)` shares, and
return none — a no-op, not an error — whenever that share count is 0. -/
theorem fill_entry_spec (cfg : EngineConfig) (bar : Bar) (cash : ℚ)
    (pos : Nat) (fr : ℚ) :
    fill cfg .hold bar cash pos = none ∧
    (entryShares cash fr (bar.close * (1 + cfg.slippage_pct)) = 0 →
      fill cfg (.enterLong fr) bar cash pos = none) ∧
    (∀ f, fill cfg (.enterLong fr) bar cash pos = some f →
      f.side = .buy ∧ f.price = bar.close * (1 + cfg.slippage_pct) ∧
      f.shares = entryShares cash fr (bar.close * (1 + cfg.slippage_pct))) ∧
    (entryShares cash fr (bar.close * (1 - cfg.slippage_pct)) = 0 →
      fill cfg (.enterShort fr) bar cash pos = none) ∧
    (∀ f, fill cfg (.enterShort fr) bar cash pos = some f →
      f.side = .sell ∧ f.price = bar.close * (1 - cfg.slippage_pct) ∧
      f.shares = entryShares cash fr (bar.close * (1 - cfg.slippage_pct))) := by
  refine ⟨rfl, ?_, ?_, ?_, ?_⟩
  · intro h
    simp [fill, h]
  · intro f hf
    simp only [fill] at hf
    split at hf
    · exact Option.noConfusion hf
    · split at hf
      · exact Option.noConfusion hf
      · split at hf
        · exact Option.noConfusion hf
        · cases hf
          exact ⟨rfl, rfl, rfl⟩
  · intro h
    simp [fill, h]
  · intro f hf
    simp only [fill] at hf
    split at hf
    · exact Option.noConfusion hf
    · split at hf
      · exact Option.noConfusion hf
      · cases hf
        exact ⟨rfl, rfl, rfl⟩

/-- Configuration used to witness `fill_entry_spec`: 0.1% slippage, zero
commission (the values of `backtest.py`). -/
def witnessCfg : EngineConfig := ⟨1000, 0, 1/1000⟩

/-- Bar used to witness `fill_entry_spec`: close 10. -/
def witnessBar : Bar := ⟨0, 10, 10, 10, 10, 100⟩

/-- Witness for C2: at close 10 with 0.1% slippage, 5 in cash affords no
share (no-op), while 100 in cash buys
`floor(100 / 10.01) = 9` shares at the adjusted price. -/
theorem fill_entry_spec_witness :
    fill witnessCfg .hold witnessBar 5 0 = none ∧
    fill witnessCfg (.enterLong 1) witnessBar 5 0 = none ∧
    (Fill.mk .buy (1001/100) 9 0).shares =
      entryShares 100 1 (witnessBar.close * (1 + witnessCfg.slippage_pct)) := by
  have h0 : Int.toNat 0 = 0 := rfl
  have h9 : Int.toNat 9 = 9 := rfl
  refine ⟨(fill_entry_spec witnessCfg witnessBar 5 0 1).1,
    (fill_entry_spec witnessCfg witnessBar 5 0 1).2.1
      (by norm_num [entryShares, witnessBar, witnessCfg, h0]),
    ((fill_entry_spec witnessCfg witnessBar 100 0 1).2.2.1
      ⟨.buy, 1001/100, 9, 0⟩
      (by norm_num [fill, entryShares, witnessBar, witnessCfg, h9])).2.2⟩

/-- C6: the Data Quality Validator fails with a fatal `DataError` exactly
when timestamps are not strictly increasing; oversized gaps, price
anomalies and zero-volume bars only contribute warnings to an otherwise
successful scan; a clean series yields no warnings at all. -/
theorem validator_spec (bars : List Bar) :
    (validate bars = Except.error DataError.non_monotonic ↔
      strictlyIncreasingB bars = false) ∧
    (strictlyIncreasingB bars = true →
      validate bars = Except.ok
        (gapWarnings bars ++ priceAnomalyWarnings bars ++ zeroVolumeWarnings bars)) ∧
    (cleanSeries bars = true → validate bars = Except.ok []) := by
  refine ⟨?_, ?_, ?_⟩
  · unfold validate
    by_cases hsi : strictlyIncreasingB bars <;> simp [hsi]
  · intro hsi
    simp [validate, hsi]
  · intro hclean
    simp only [cleanSeries, Bool.and_eq_true] at hclean
    obtain ⟨⟨⟨hsi, hgap⟩, hanom⟩, hvol⟩ := hclean
    simp [validate, hsi, gapWarnings_eq_nil bars hgap,
      priceAnomalyWarnings_eq_nil bars hanom, zeroVolumeWarnings_eq_nil bars hvol]

/-- A clean two-bar series used to witness `validator_spec`. -/
def witnessCleanBars : List Bar :=
  [⟨0, 10, 11, 9, 10, 50⟩, ⟨1, 10, 12, 9, 11, 60⟩]

/-- A two-bar series with a 5-day gap used to witness `validator_spec`. -/
def witnessGapBars : List Bar :=
  [⟨0, 10, 11, 9, 10, 50⟩, ⟨6, 10, 12, 9, 11, 60⟩]

/-- Witness for C6: a clean series validates to no warnings; a series with
a 5-day calendar gap still validates successfully, with exactly the one
gap warning. -/
theorem validator_spec_witness :
    validate witnessCleanBars = Except.ok [] ∧
    validate witnessGapBars =
      Except.ok ["gap of more than 3 missing days before bar at day 6"] := by
  refine ⟨(validator_spec witnessCleanBars).2.2 (by decide), ?_⟩
  have h := (validator_spec witnessGapBars).2.1 (by decide)
  rw [h]
  rfl

/-- C3 (amended): `profit_factor` is the winning-pnl sum divided by the
absolute losing-pnl sum when losing trades exist, and the explicit
sentinel 0 — never infinity, never NaN — when there are none; the report's
"N/A (no losing trades)" branch fires exactly when the profit factor is
not positive, that is, when there are no losing trades or no winning
trades. -/
theorem profit_factor_spec (initial_capital final_equity : ℚ) (pnls : List ℚ) :
    ((computeMetrics initial_capital final_equity pnls).losing_trades = 0 →
      (computeMetrics initial_capital final_equity pnls).profit_factor = 0) ∧
    ((computeMetrics initial_capital final_equity pnls).losing_trades ≠ 0 →
      (computeMetrics initial_capital final_equity pnls).profit_factor =
        (winningPnls pnls).sum / |(losingPnls pnls).sum|) ∧
    (profitFactorShownAsNA
        (computeMetrics initial_capital final_equity pnls).profit_factor = true ↔
      ((computeMetrics initial_capital final_equity pnls).losing_trades = 0 ∨
       (computeMetrics initial_capital final_equity pnls).winning_trades = 0)) := by
  have hpf : (computeMetrics initial_capital final_equity pnls).profit_factor =
      profit_factor pnls := rfl
  have hlt : (computeMetrics initial_capital final_equity pnls).losing_trades =
      (losingPnls pnls).length := rfl
  have hwt : (computeMetrics initial_capital final_equity pnls).winning_trades =
      (winningPnls pnls).length := rfl
  rw [hpf, hlt, hwt]
  refine ⟨fun h => by simp [profit_factor, h], fun h => by simp [profit_factor, h], ?_⟩
  have hna : profitFactorShownAsNA (profit_factor pnls) = true ↔
      ¬ 0 < profit_factor pnls := by
    unfold profitFactorShownAsNA
    by_cases h : 0 < profit_factor pnls <;> simp [h]
  rw [hna]
  constructor
  · intro hle
    by_cases hl : (losingPnls pnls).length = 0
    · exact Or.inl hl
    · right
      by_cases hw : (winningPnls pnls).length = 0
      · exact hw
      · exfalso
        apply hle
        have hpos := winning_sum_pos pnls hw
        have hneg := losing_sum_neg pnls hl
        have habs : 0 < |(losingPnls pnls).sum| := abs_pos.mpr (ne_of_lt hneg)
        rw [profit_factor, if_neg hl]
        exact div_pos hpos habs
  · rintro (hl | hw)
    · simp [profit_factor, hl]
    · have : winningPnls pnls = [] := List.length_eq_zero.mp hw
      rw [profit_factor]
      split
      · simp
      · rw [this]
        simp

/-- The zero-commission, zero-slippage configuration with capital 100 used
by the concrete runs below. -/
def cexCfg : EngineConfig := ⟨100, 0, 0⟩

/-- Strategy for the concrete runs: enter long with the whole capital on
the first bar, exit on the next. -/
def cexEnterExitStrat : Strategy :=
  fun hist _ => if hist.length = 1 then .enterLong 1 else .exitLong

/-- Bars for the C3 counterexample: close 10 then close 5, so the single
trade loses 50. -/
def cexLosingBars : List Bar :=
  [⟨0, 10, 10, 10, 10, 100⟩, ⟨1, 5, 5, 5, 5, 100⟩]

/-- Counterexample for C3 as stated: a run whose one trade is a loss
(losing_trades = 1) still has its profit factor presented as
"N/A (no losing trades)", because all trades lost and the numerator is 0 —
so the N/A presentation does not occur exactly when there are no losing
trades. -/
theorem profit_factor_na_counterexample :
    (runBacktest cexCfg cexEnterExitStrat cexLosingBars 0).map
        (fun r => (r.metrics.losing_trades, r.metrics.profit_factor,
          profitFactorShownAsNA r.metrics.profit_factor)) =
      Except.ok (1, 0, true) := by
  have h10 : Int.toNat 10 = 10 := rfl
  norm_num [runBacktest, validate, strictlyIncreasingB, gapWarnings,
    priceAnomalyWarnings, zeroVolumeWarnings, barAnomalous, runTrace, trace,
    stepRecord, fill, engineSignal, entryShares, initState, runTrades,
    forceCloseTrade, computeMetrics, profit_factor, win_rate, average_win,
    average_loss, winningPnls, losingPnls, profitFactorShownAsNA, resultCore,
    List.filterMap_cons, List.filterMap_nil, List.filter_cons, List.filter_nil,
    decide_eq_true_eq, h10, cexCfg, cexEnterExitStrat, cexLosingBars, Except.map]

/-- Witness for C3's amended theorem: with the losing run above, the
losing-trades branch of the theorem gives the quotient form, and the N/A
display is explained by the absence of winning trades. -/
theorem profit_factor_spec_witness :
    (computeMetrics 100 50 [-50]).losing_trades ≠ 0 ∧
    (computeMetrics 100 50 [-50]).profit_factor =
      (winningPnls [-50]).sum / |(losingPnls [-50]).sum| ∧
    (profitFactorShownAsNA (computeMetrics 100 50 [-50]).profit_factor = true ↔
      ((computeMetrics 100 50 [-50]).losing_trades = 0 ∨
       (computeMetrics 100 50 [-50]).winning_trades = 0)) := by
  have hne : (computeMetrics (100:ℚ) 50 [-50]).losing_trades ≠ 0 := by
    norm_num [computeMetrics, losingPnls]
  exact ⟨hne, (profit_factor_spec 100 50 [-50]).2.1 hne,
    (profit_factor_spec 100 50 [-50]).2.2⟩

/-- C5 (amended): `win_rate` is `winning_trades / total_trades`, 0 when
there are no trades (no division by zero), always within `[0, 1]`, and it
equals 1 exactly when there is at least one trade and every trade is a
winner — `losing_trades = 0` alone does not force `win_rate = 1`, since a
zero-pnl trade counts in the denominator but is neither a win nor a loss. -/
theorem win_rate_spec (initial_capital final_equity : ℚ) (pnls : List ℚ) :
    ((computeMetrics initial_capital final_equity pnls).total_trades = 0 →
      (computeMetrics initial_capital final_equity pnls).win_rate = 0) ∧
    ((computeMetrics initial_capital final_equity pnls).total_trades ≠ 0 →
      (computeMetrics initial_capital final_equity pnls).win_rate =
        ((computeMetrics initial_capital final_equity pnls).winning_trades : ℚ) /
          ((computeMetrics initial_capital final_equity pnls).total_trades : ℚ)) ∧
    0 ≤ (computeMetrics initial_capital final_equity pnls).win_rate ∧
    (computeMetrics initial_capital final_equity pnls).win_rate ≤ 1 ∧
    ((computeMetrics initial_capital final_equity pnls).win_rate = 1 ↔
      (0 < (computeMetrics initial_capital final_equity pnls).total_trades ∧
       (computeMetrics initial_capital final_equity pnls).winning_trades =
         (computeMetrics initial_capital final_equity pnls).total_trades)) := by
  have hwr : (computeMetrics initial_capital final_equity pnls).win_rate =
      win_rate pnls := rfl
  have htt : (computeMetrics initial_capital final_equity pnls).total_trades =
      pnls.length := rfl
  have hwt : (computeMetrics initial_capital final_equity pnls).winning_trades =
      (winningPnls pnls).length := rfl
  rw [hwr, htt, hwt]
  have hlen : (winningPnls pnls).length ≤ pnls.length :=
    List.length_filter_le _ _
  by_cases h0 : pnls.length = 0
  · refine ⟨fun _ => by simp [win_rate, h0], fun h => absurd h0 h, ?_, ?_, ?_⟩
    · simp [win_rate, h0]
    · simp [win_rate, h0]
    · simp [win_rate, h0]
  · have hq : (0:ℚ) < (pnls.length : ℚ) := by
      exact_mod_cast Nat.pos_of_ne_zero h0
    have hval : win_rate pnls =
        ((winningPnls pnls).length : ℚ) / (pnls.length : ℚ) := by
      simp [win_rate, h0]
    refine ⟨fun h => absurd h h0, fun _ => hval, ?_, ?_, ?_⟩
    · rw [hval]
      exact div_nonneg (Nat.cast_nonneg _) (le_of_lt hq)
    · rw [hval]
      exact (div_le_one hq).mpr (by exact_mod_cast hlen)
    · rw [hval]
      rw [div_eq_one_iff_eq (ne_of_gt hq)]
      constructor
      · intro h
        exact ⟨Nat.pos_of_ne_zero h0, by exact_mod_cast h⟩
      · intro ⟨_, h⟩
        exact_mod_cast h

/-- Bars for the C5 counterexample: close 10 twice, so the single trade
has pnl exactly 0. -/
def cexFlatBars : List Bar :=
  [⟨0, 10, 10, 10, 10, 100⟩, ⟨1, 10, 10, 10, 10, 100⟩]

/-- Counterexample for C5 as stated: a run with one zero-pnl trade has
`losing_trades = 0` and `total_trades = 1 > 0` yet `win_rate = 0`, not 1 —
the "equals 1 exactly when losing_trades == 0 and total_trades > 0"
biconditional fails in the right-to-left direction. -/
theorem win_rate_one_counterexample :
    (runBacktest cexCfg cexEnterExitStrat cexFlatBars 0).map
        (fun r => (r.metrics.total_trades, r.metrics.losing_trades,
          r.metrics.win_rate)) =
      Except.ok (1, 0, 0) ∧ (0:ℚ) ≠ 1 := by
  have h10 : Int.toNat 10 = 10 := rfl
  constructor
  · norm_num [runBacktest, validate, strictlyIncreasingB, gapWarnings,
      priceAnomalyWarnings, zeroVolumeWarnings, barAnomalous, runTrace, trace,
      stepRecord, fill, engineSignal, entryShares, initState, runTrades,
      forceCloseTrade, computeMetrics, profit_factor, win_rate, average_win,
      average_loss, winningPnls, losingPnls, resultCore,
      List.filterMap_cons, List.filterMap_nil, List.filter_cons, List.filter_nil,
      decide_eq_true_eq, h10, cexCfg, cexEnterExitStrat, cexFlatBars, Except.map]
  · norm_num

/-- Witness for C5's amended theorem: on the one-zero-pnl-trade metrics
the theorem gives `win_rate = 0/1 = 0` and the bounds hold. -/
theorem win_rate_spec_witness :
    (computeMetrics 100 100 [0]).total_trades ≠ 0 ∧
    (computeMetrics 100 100 [0]).win_rate =
      ((computeMetrics 100 100 [0]).winning_trades : ℚ) /
        ((computeMetrics 100 100 [0]).total_trades : ℚ) ∧
    0 ≤ (computeMetrics 100 100 [0]).win_rate ∧
    (computeMetrics 100 100 [0]).win_rate ≤ 1 := by
  have hne : (computeMetrics (100:ℚ) 100 [0]).total_trades ≠ 0 := by
    norm_num [computeMetrics]
  exact ⟨hne, (win_rate_spec 100 100 [0]).2.1 hne,
    (win_rate_spec 100 100 [0]).2.2.1, (win_rate_spec 100 100 [0]).2.2.2.1⟩

/-- C1 (amended): for every run, an equity point is recorded for every bar
(in order), each recorded equity equals cash plus mark-to-market position
value at that bar's close, and consecutive equities differ exactly by the
carried position's price move plus the bar's fill effect.  Cash never
drops below minus one commission; it never goes negative when the
configured commission is zero (the original unconditional non-negativity
fails: with a positive flat commission, an exit after an adverse move can
overdraw cash by up to the commission). -/
theorem ledger_equity_invariants (cfg : EngineConfig) (strat : Strategy)
    (bars : List Bar) (hcomm : 0 ≤ cfg.commission)
    (hcap : 0 ≤ cfg.initial_capital)
    (hslip : cfg.slippage_pct ≤ 1) (hclose : ∀ b ∈ bars, 0 ≤ b.close) :
    ((runTrace cfg strat bars).map (fun r => r.bar) = bars) ∧
    (∀ r ∈ runTrace cfg strat bars,
      r.equity = r.state.cash + (r.state.shares : ℚ) * r.bar.close) ∧
    List.Chain' DeltaStep (runTrace cfg strat bars) ∧
    (∀ r ∈ runTrace cfg strat bars,
      -cfg.commission ≤ r.state.cash ∧
      (cfg.commission = 0 → 0 ≤ r.state.cash)) := by
  refine ⟨trace_bars cfg strat bars [] (initState cfg),
    trace_equity cfg strat bars [] (initState cfg),
    trace_chain cfg strat bars [] (initState cfg), ?_⟩
  intro r hr
  have hinit : CashInv cfg (initState cfg) := by
    constructor
    · show -cfg.commission ≤ cfg.initial_capital
      linarith
    · intro h
      exact absurd rfl h
  have := trace_cash_inv cfg strat hcomm hslip bars [] (initState cfg) hclose hinit r hr
  exact ⟨this.1, fun hz => by have := this.1; rw [hz] at this; simpa using this⟩

/-- Config for the C1 counterexample: capital 25, flat commission 5, no
slippage. -/
def c1CexCfg : EngineConfig := ⟨25, 5, 0⟩

/-- Bars for the C1 counterexample: close 10 then a crash to close 1. -/
def c1CexBars : List Bar :=
  [⟨0, 10, 10, 10, 10, 100⟩, ⟨1, 1, 1, 1, 1, 100⟩]

/-- Strategy for the C1 counterexample: commit 4/5 of capital on the first
bar, exit on the next. -/
def c1CexStrat : Strategy :=
  fun hist _ => if hist.length = 1 then .enterLong (4/5) else .exitLong

/-- Counterexample for C1 as stated: with a positive flat commission the
spec's own rules drive cash negative.  Capital 25, commission 5: the entry
(2 shares at 10 plus commission) spends exactly 25, and the exit after the
crash credits `2 * 1 - 5 = -3`, leaving cash at -3 < 0 — so "cash never
goes negative at any point of the run" is false. -/
theorem ledger_cash_negative_counterexample :
    (runTrace c1CexCfg c1CexStrat c1CexBars).map (fun r => r.state.cash) =
      [0, -3] ∧ ((-3 : ℚ) < 0) := by
  have h2 : Int.toNat 2 = 2 := rfl
  constructor
  · norm_num [runTrace, trace, stepRecord, fill, engineSignal, entryShares,
      initState, h2, c1CexCfg, c1CexStrat, c1CexBars]
  · norm_num

/-- Witness for C1's amended theorem, at the zero-commission config of
`backtest.py`: on a two-bar buy-and-hold-style run the recorded bars match
the input and the equity-delta chain holds. -/
theorem ledger_equity_invariants_witness :
    ((runTrace witnessCfg cexEnterExitStrat witnessCleanBars).map
        (fun r => r.bar) = witnessCleanBars) ∧
    List.Chain' DeltaStep (runTrace witnessCfg cexEnterExitStrat witnessCleanBars) := by
  have h := ledger_equity_invariants witnessCfg cexEnterExitStrat witnessCleanBars
    (by norm_num [witnessCfg]) (by norm_num [witnessCfg]) (by norm_num [witnessCfg])
    (by intro b hb; simp [witnessCleanBars] at hb; rcases hb with rfl | rfl <;> norm_num)
  exact ⟨h.1, h.2.2.1⟩

end TradingBot
